import Mathlib

/-!
Verification of the attendance / aggregation / absentee logic of the
Church_Attendance application (src/app.py).

Modelling conventions for the shallow embedding:

* A pandas attendance dataframe row is a record of the six canonical columns
  (`ATTENDANCE_COLS`, src/app.py line 25).  Before normalization the
  `Household` cell is modelled as `Option ℚ`: the value `pd.to_numeric`
  (respectively Python `float`) associates to the cell, `none` when the cell
  does not parse as a number (pandas `NaN`).  After normalization
  (`ensure_attendance_cols`) the `Household` cell is an integer.
* `astype(int)` / Python `int(...)` on a float truncate toward zero; this is
  `ratTrunc` below.
* Text cells (`Timestamp`, `ServiceDate`, `ServiceName`, `Attendee`, `Notes`)
  are Lean `String`s; `astype(str)` on a string column is the identity.
* Tables are `List`s of rows in dataframe order; `reset_index(drop=True)`
  re-indexing is implicit in the list representation.
* pandas sorts (`groupby(sort=True)`, `sort_values`) are modelled with
  `List.insertionSort`, a stable sort, over explicit lexicographic
  comparisons on the code points of the strings involved (`lexLt` below),
  which is the pandas string order.
-/

namespace ChurchAttendance

/-- Canonical attendance columns, src/app.py line 25. -/
def ATTENDANCE_COLS : List String :=
  ["Timestamp", "ServiceDate", "ServiceName", "Attendee", "Household", "Notes"]

/-- An attendance dataframe row before normalization: the `Household` cell is
the numeric value pandas associates to the cell (`none` = NaN / parse failure). -/
structure RawRow where
  timestamp : String
  serviceDate : String
  serviceName : String
  attendee : String
  household : Option ℚ
  notes : String
deriving DecidableEq

/-- An attendance row after `ensure_attendance_cols`: `Household` is an `Int`. -/
structure Row where
  timestamp : String
  serviceDate : String
  serviceName : String
  attendee : String
  household : Int
  notes : String
deriving DecidableEq

/-- Truncation toward zero, the behaviour of numpy `astype(int)` and Python
`int(...)` on a float value. -/
def ratTrunc (q : ℚ) : Int := if 0 ≤ q then ⌊q⌋ else ⌈q⌉

/-- Embedding of `pd.to_numeric(col, errors="coerce").fillna(1).astype(int)`
applied to one `Household` cell (src/app.py line 69): a cell that does not
parse as a number becomes `1`; a numeric cell is truncated toward zero. -/
def to_numeric_fillna1 (x : Option ℚ) : Int :=
  match x with
  | none => 1
  | some q => ratTrunc q

/-- Normalization of one row, as performed column-wise by
`ensure_attendance_cols` (src/app.py lines 62-71): `Household` is coerced via
`to_numeric_fillna1`, `ServiceDate` via `astype(str)` (identity on strings). -/
def ensureRow (r : RawRow) : Row :=
  { timestamp := r.timestamp
    serviceDate := r.serviceDate
    serviceName := r.serviceName
    attendee := r.attendee
    household := to_numeric_fillna1 r.household
    notes := r.notes }

/-- Embedding of `ensure_attendance_cols` (src/app.py lines 62-71).  The
missing-column insertion of lines 63-67 is implicit in the `RawRow` record
(a cell of an absent `Household` column is the default `1`, i.e. `some 1`;
a cell of an absent text column is `""`); the column selection of line 68 is
implicit in the record type. -/
def ensure_attendance_cols (t : List RawRow) : List Row := t.map ensureRow

/-- Embedding of the `to_int` helper (src/app.py lines 279-283 and 528-532):
`int(float(x))` truncated toward zero, clamped to `1` when the result is not
positive or when `float(x)` raises (input `none`). -/
def to_int (x : Option ℚ) : Int :=
  match x with
  | none => 1
  | some q => if 0 < ratTrunc q then ratTrunc q else 1

/-- Re-reading of a normalized row as a raw row (an integer `Household` cell
is the numeric value of itself). -/
def Row.toRaw (r : Row) : RawRow :=
  { timestamp := r.timestamp
    serviceDate := r.serviceDate
    serviceName := r.serviceName
    attendee := r.attendee
    household := some (r.household : ℚ)
    notes := r.notes }

/-- A raw row with `Household` cell `0` (for instance the spreadsheet text
cell `"0"`, which `pd.to_numeric` parses as the number `0`). -/
def rawHouseholdZero : RawRow :=
  { timestamp := "2024-01-07 10:00:00"
    serviceDate := "2024-01-07"
    serviceName := "Sunday 1st Service"
    attendee := "Jane Doe"
    household := some 0
    notes := "" }

/-- Embedding of the absentee computation (src/app.py line 384):
`missing = sorted(set(active_attendees) - set(present_today))`.  The set
difference is taken as a `Finset`; the surrounding `sorted(...)` only fixes
the enumeration order of that set and is immaterial to membership. -/
def computeAbsentees (active present : List String) : Finset String :=
  active.toFinset \ present.toFinset

/-- Embedding of the admin row deletion (src/app.py line 541):
`att.drop(index=idx).reset_index(drop=True)` on the default integer index
removes the row at ordinal position `idx` and re-indexes contiguously. -/
def deleteRow (t : List Row) (idx : Nat) : List Row := t.eraseIdx idx

/-- One concrete attendance row, used by witnesses. -/
def sampleRow (name : String) (hh : Int) : Row :=
  { timestamp := "2024-01-07 10:00:00"
    serviceDate := "2024-01-07"
    serviceName := "Sunday 1st Service"
    attendee := name
    household := hh
    notes := "" }

/-- Strict lexicographic comparison of code-point lists, the order pandas
uses on strings. -/
def lexLt : List Nat → List Nat → Bool
  | [], [] => false
  | [], _ :: _ => true
  | _ :: _, [] => false
  | a :: as, b :: bs => if a < b then true else if b < a then false else lexLt as bs

/-- Code points of a string. -/
def charVals (s : String) : List Nat := s.data.map Char.toNat

/-- Non-strict lexicographic comparison of strings by code points. -/
def strLeB (a b : String) : Bool :=
  lexLt (charVals a) (charVals b) || charVals a == charVals b

/-- The relation sorted by when pandas sorts strings ascending. -/
abbrev strRel (a b : String) : Prop := strLeB a b = true

/-- Lexicographic comparison of (ServiceDate, ServiceName) keys: compare the
dates, break ties by the names. -/
def keyLeB (a b : String × String) : Bool :=
  if lexLt (charVals a.1) (charVals b.1) then true
  else if lexLt (charVals b.1) (charVals a.1) then false
  else strLeB a.2 b.2

/-- The relation sorted by in `summary` (ascending (ServiceDate, ServiceName)). -/
abbrev keyRel (a b : String × String) : Prop := keyLeB a b = true

/-- The grouping key of `summary`: (`ServiceDate`, `ServiceName`). -/
def serviceKey (r : Row) : String × String := (r.serviceDate, r.serviceName)

/-- One output row of the per-service totals. -/
structure SummaryRow where
  serviceDate : String
  serviceName : String
  entries : Nat
  people : Int
deriving DecidableEq

/-- Rows of a table belonging to one (ServiceDate, ServiceName) group. -/
def keyGroup (t : List Row) (k : String × String) : List Row :=
  t.filter (fun r => decide (serviceKey r = k))

/-- The distinct service keys of a table in ascending order
(`groupby(["ServiceDate","ServiceName"])` with its default `sort=True`,
followed by `sort_values(["ServiceDate","ServiceName"])`, src/app.py
lines 361-363). -/
def summaryKeys (t : List Row) : List (String × String) :=
  List.insertionSort keyRel ((t.map serviceKey).dedup)

/-- The aggregated output row of one service group:
`entries=("Attendee","count"), people=("Household","sum")`. -/
def summaryOfKey (t : List Row) (k : String × String) : SummaryRow :=
  { serviceDate := k.1
    serviceName := k.2
    entries := (keyGroup t k).length
    people := ((keyGroup t k).map Row.household).sum }

/-- Embedding of the Totals-per-Service table (src/app.py lines 359-364). -/
def summary (t : List Row) : List SummaryRow :=
  (summaryKeys t).map (summaryOfKey t)

/-- One output row of the top-attendees ranking. -/
structure TopRow where
  attendee : String
  times : Nat
  people : Int
deriving DecidableEq

/-- Rows of a table belonging to one attendee. -/
def attGroup (t : List Row) (a : String) : List Row :=
  t.filter (fun r => decide (r.attendee = a))

/-- The distinct attendees of a table in ascending order (`groupby("Attendee")`
with its default `sort=True`, src/app.py line 481). -/
def attKeys (t : List Row) : List String :=
  List.insertionSort strRel ((t.map Row.attendee).dedup)

/-- The aggregated output row of one attendee:
`times=("Attendee","count"), people=("Household","sum")`. -/
def topOfAttendee (t : List Row) (a : String) : TopRow :=
  { attendee := a
    times := (attGroup t a).length
    people := ((attGroup t a).map Row.household).sum }

/-- Comparison used for `sort_values("people", ascending=False)` on the
attendee groups: larger `people` first; groups with equal `people` keep the
ascending-attendee order they have after `groupby`, which a stable sort
preserves — expressed here by breaking ties by attendee. -/
def topLeB (a b : TopRow) : Bool :=
  if b.people < a.people then true
  else if a.people < b.people then false
  else strLeB a.attendee b.attendee

/-- The relation sorted by in `topn`. -/
abbrev topRel (a b : TopRow) : Prop := topLeB a b = true

/-- Embedding of the top-attendees table (src/app.py lines 481-483):
group by `Attendee`, aggregate, sort by `people` descending, `head(20)`. -/
def topn (t : List Row) : List TopRow :=
  (List.insertionSort topRel ((attKeys t).map (topOfAttendee t))).take 20

/-- Concrete two-row table of one service, used by the C3 witness. -/
def summaryWitnessTable : List Row := [sampleRow "Ann" 2, sampleRow "Bob" 3]

/-- The single summary row of `summaryWitnessTable`. -/
def summaryWitnessRow : SummaryRow :=
  { serviceDate := "2024-01-07"
    serviceName := "Sunday 1st Service"
    entries := 2
    people := 5 }

/-- Concrete table with two attendees of equal `people`, listed in
non-alphabetical input order, used for C5. -/
def tieTable : List Row := [sampleRow "Bob" 2, sampleRow "Ann" 2]

/-- The output row of `tieTable` for attendee `"Ann"`. -/
def topWitnessRow : TopRow := { attendee := "Ann", times := 1, people := 2 }

/-- Decimal digit value of a character, `none` when the character is not a
digit. -/
def digitVal (c : Char) : Option Nat :=
  if 48 ≤ c.toNat ∧ c.toNat ≤ 57 then some (c.toNat - 48) else none

/-- Modelled from the library behaviour of
`pd.to_datetime(col, errors="coerce")` (src/app.py line 446) restricted to
the ISO `YYYY-MM-DD` representation the application itself writes
(`date.isoformat()`): the result is a rank that orders calendar dates
(year, then month, then day); any other shape is `none` (pandas `NaT`). -/
def parseDate (s : String) : Option Nat :=
  match s.data with
  | [y1, y2, y3, y4, h1, m1, m2, h2, d1, d2] =>
    match digitVal y1, digitVal y2, digitVal y3, digitVal y4,
        digitVal m1, digitVal m2, digitVal d1, digitVal d2 with
    | some a, some b, some c, some d, some e, some f, some g, some h =>
      if h1 = '-' ∧ h2 = '-' then
        if 1 ≤ 10 * e + f ∧ 10 * e + f ≤ 12 ∧ 1 ≤ 10 * g + h ∧ 10 * g + h ≤ 31 then
          some (10000 * (1000 * a + 100 * b + 10 * c + d) + 100 * (10 * e + f) + (10 * g + h))
        else none
      else none
    | _, _, _, _, _, _, _, _ => none
  | _ => none

/-- The calendar-date rank of a row (`dt.date` of the parsed `ServiceDate`);
only meaningful on rows whose date parses. -/
def dateRank (r : Row) : Nat := (parseDate r.serviceDate).getD 0

/-- Embedding of the dashboard base frame (src/app.py lines 445-447):
`pd.to_datetime(..., errors="coerce")` followed by
`dropna(subset=["ServiceDate"])` discards the rows whose date does not
parse. -/
def dfc (t : List Row) : List Row :=
  t.filter (fun r => (parseDate r.serviceDate).isSome)

/-- Embedding of the optional service filter (src/app.py lines 462-463):
`none` is the `"All"` choice. -/
def svcApply (svc : Option String) (t : List Row) : List Row :=
  match svc with
  | none => t
  | some sname => t.filter (fun r => decide (r.serviceName = sname))

/-- Embedding of the dashboard row selection (src/app.py lines 445-463):
drop unparsable dates, keep the inclusive date range, then apply the
service filter. -/
def dashRows (t : List Row) (lo hi : Nat) (svc : Option String) : List Row :=
  svcApply svc ((dfc t).filter (fun r => decide (lo ≤ dateRank r ∧ dateRank r ≤ hi)))

/-- One output row of the daily series. -/
structure DailyRow where
  date : Nat
  people : Int
  entries : Nat
deriving DecidableEq

/-- Rows of a table belonging to one calendar date. -/
def dayGroup (t : List Row) (d : Nat) : List Row :=
  t.filter (fun r => decide (dateRank r = d))

/-- The distinct dates of a table, ascending (`groupby("Date")` with its
default `sort=True`). -/
def dailyKeys (t : List Row) : List Nat :=
  List.insertionSort (fun a b => a ≤ b) ((t.map dateRank).dedup)

/-- The aggregated output row of one date:
`people=("Household","sum"), entries=("Attendee","count")`. -/
def dailyOfDate (t : List Row) (d : Nat) : DailyRow :=
  { date := d
    people := ((dayGroup t d).map Row.household).sum
    entries := (dayGroup t d).length }

/-- Embedding of the daily series (src/app.py line 467), applied to the
dashboard row selection. -/
def daily (t : List Row) : List DailyRow :=
  (dailyKeys t).map (dailyOfDate t)

/-- Embedding of the trailing rolling mean
`daily["people"].rolling(roll).mean()` (src/app.py line 470): position `i`
is undefined while fewer than `w` points are available (pandas default
`min_periods = window`), otherwise the arithmetic mean of the window ending
at `i`. -/
def rollingMean (w : Nat) (xs : List ℚ) : List (Option ℚ) :=
  (List.range xs.length).map (fun i =>
    if i + 1 < w then none
    else some (((xs.drop (i + 1 - w)).take w).sum / (w : ℚ)))

/-- The rolling-mean column of the daily series (src/app.py line 470). -/
def dailyRoll (w : Nat) (t : List Row) : List (Option ℚ) :=
  rollingMean w ((daily t).map (fun d => (d.people : ℚ)))

/-- One output row of the service-mix view. -/
structure MixRow where
  date : Nat
  serviceName : String
  people : Int
deriving DecidableEq

/-- The grouping key of the service mix: (date, `ServiceName`). -/
def mixKey (r : Row) : Nat × String := (dateRank r, r.serviceName)

/-- Lexicographic comparison of (date, ServiceName) keys. -/
def mixLeB (a b : Nat × String) : Bool :=
  if a.1 < b.1 then true
  else if b.1 < a.1 then false
  else strLeB a.2 b.2

/-- The relation the service-mix keys are sorted by. -/
abbrev mixRel (a b : Nat × String) : Prop := mixLeB a b = true

/-- Rows of a table belonging to one (date, ServiceName) group. -/
def mixGroup (t : List Row) (k : Nat × String) : List Row :=
  t.filter (fun r => decide (mixKey r = k))

/-- The distinct (date, ServiceName) keys of a table, ascending. -/
def svcMixKeys (t : List Row) : List (Nat × String) :=
  List.insertionSort mixRel ((t.map mixKey).dedup)

/-- Embedding of the service-mix view (src/app.py line 475), applied to the
dashboard row selection. -/
def svcMix (t : List Row) : List MixRow :=
  (svcMixKeys t).map (fun k =>
    { date := k.1
      serviceName := k.2
      people := ((mixGroup t k).map Row.household).sum })

/-- A row whose `ServiceDate` does not parse as a date. -/
def badDateRow : Row :=
  { timestamp := "2024-01-07 10:00:00"
    serviceDate := "TBD"
    serviceName := "Sunday 1st Service"
    attendee := "Zed"
    household := 1
    notes := "" }

/-- A table mixing a parsable and an unparsable `ServiceDate`. -/
def mixedTable : List Row := [sampleRow "Ann" 2, badDateRow]

/-- Decimal rendering of a natural number, most significant digit first, the
form in which `to_csv` writes an integer `Household` cell. -/
def renderNat (n : Nat) : List Char :=
  if n = 0 then ['0'] else ((Nat.digits 10 n).reverse).map (fun d => Char.ofNat (48 + d))

/-- Decimal rendering of an integer (optional leading minus sign). -/
def renderInt (i : Int) : String :=
  if i < 0 then String.mk ('-' :: renderNat i.natAbs) else String.mk (renderNat i.toNat)

/-- Accumulating decimal parse, most significant digit first; fails on any
non-digit character. -/
def parseDigitsAux : List Char → Nat → Option Nat
  | [], acc => some acc
  | c :: cs, acc =>
    match digitVal c with
    | none => none
    | some d => parseDigitsAux cs (10 * acc + d)

/-- Decimal parse of a non-empty all-digit character list. -/
def parseDigits (l : List Char) : Option Nat :=
  if l = [] then none else parseDigitsAux l 0

/-- Modelled from the library behaviour of `pd.read_csv` type inference and
`pd.to_numeric` on a `Household` cell, restricted to optionally-signed
decimal integer text — the only numeric format the application itself writes
to CSV; other accepted numeric spellings of the library are not modelled. -/
def parseNumCell (s : String) : Option ℚ :=
  match s.data with
  | [] => none
  | c :: rest =>
    if c = '-' then (parseDigits rest).map (fun n => -(n : ℚ))
    else (parseDigits (c :: rest)).map (fun n => (n : ℚ))

/-- A CSV file: a header line naming the columns and one cell list per data
line. -/
structure Csv where
  header : List String
  rows : List (List String)
deriving DecidableEq

/-- The cells of one exported attendance row, in canonical column order. -/
def rowCells (r : Row) : List String :=
  [r.timestamp, r.serviceDate, r.serviceName, r.attendee, renderInt r.household, r.notes]

/-- Embedding of the attendance CSV export (src/app.py line 551):
`ensure_attendance_cols(att).to_csv(index=False)` — the canonical header
followed by one line per normalized row.  Cell text is modelled verbatim
(the CSV quoting layer of the library is its own inverse and is not
modelled). -/
def csv_att (t : List Row) : Csv :=
  { header := ATTENDANCE_COLS
    rows := (ensure_attendance_cols (t.map Row.toRaw)).map rowCells }

/-- The cell of a named column in one CSV line, as `pd.read_csv` associates
cells to column names by header position. -/
def getCell (header cells : List String) (c : String) : String :=
  match header.findIdx? (fun h => decide (h = c)) with
  | none => ""
  | some i => cells.getD i ""

/-- One imported CSV line read as a raw attendance row. -/
def rawOfCells (header cells : List String) : RawRow :=
  { timestamp := getCell header cells "Timestamp"
    serviceDate := getCell header cells "ServiceDate"
    serviceName := getCell header cells "ServiceName"
    attendee := getCell header cells "Attendee"
    household := parseNumCell (getCell header cells "Household")
    notes := getCell header cells "Notes" }

/-- Embedding of the import handler (src/app.py lines 558-567): when any
required column is missing the import fails with the list of missing columns
(`missing = [c for c in ATTENDANCE_COLS if c not in newdf.columns]`);
otherwise the selected columns are normalized and saved wholesale. -/
def importCsv (csv : Csv) : Except (List String) (List Row) :=
  if ATTENDANCE_COLS.filter (fun c => decide (c ∉ csv.header)) = [] then
    Except.ok (ensure_attendance_cols (csv.rows.map (rawOfCells csv.header)))
  else Except.error (ATTENDANCE_COLS.filter (fun c => decide (c ∉ csv.header)))

/-- The attendance ledger after the import handler runs: replaced on success,
unchanged on rejection (the handler only shows the error message). -/
def applyImport (csv : Csv) (current : List Row) : List Row :=
  match importCsv csv with
  | Except.error _ => current
  | Except.ok t => t

/-- A CSV whose header lacks the `Household` column. -/
def noHouseholdCsv : Csv :=
  { header := ["Timestamp", "ServiceDate", "ServiceName", "Attendee", "Notes"]
    rows := [["2024-01-07 10:00:00", "2024-01-07", "Sunday 1st Service", "Jane Doe", ""]] }

/-! ## Theorems -/

theorem ratTrunc_intCast (n : Int) : ratTrunc (n : ℚ) = n := by
  unfold ratTrunc
  by_cases h : (0 : ℚ) ≤ (n : ℚ)
  · rw [if_pos h, Int.floor_intCast]
  · rw [if_neg h, Int.ceil_intCast]

theorem ensureRow_toRaw (r : Row) : ensureRow r.toRaw = r := by
  simp [ensureRow, Row.toRaw, to_numeric_fillna1, ratTrunc_intCast]

/-- Normalized tables are fixed points of normalization. -/
theorem ensure_toRaw (t : List Row) :
    ensure_attendance_cols (t.map Row.toRaw) = t := by
  unfold ensure_attendance_cols
  rw [List.map_map]
  have h : ensureRow ∘ Row.toRaw = id := by
    funext r
    simp [ensureRow_toRaw]
  rw [h, List.map_id]

/-- C1, counterexample.  The coercion `to_int` applied to the value `27/10`
(input text `"2.7"`, which parses as a float but not as a positive integer)
returns `2`, not `1` as the claim requires; and `ensure_attendance_cols`
leaves a `Household` cell holding the non-positive number `0` at `0`, so the
normalized table violates `household >= 1`. -/
theorem to_int_household_counterexample :
    to_int (some ((27 : ℚ) / 10)) = 2 ∧
      (ensure_attendance_cols [rawHouseholdZero]).map Row.household = [0] := by
  constructor
  · have hfloor : ⌊(27 : ℚ) / 10⌋ = 2 := by
      rw [Int.floor_eq_iff]
      norm_num
    have htr : ratTrunc ((27 : ℚ) / 10) = 2 := by
      unfold ratTrunc
      rw [if_pos (by norm_num), hfloor]
    simp [to_int, htr]
  · simp [ensure_attendance_cols, ensureRow, rawHouseholdZero, to_numeric_fillna1,
      ratTrunc, Int.floor_zero]

/-- C1, amended.  `to_int` returns its input whenever the input parses as a
positive integer, and every value `to_int` returns is at least `1`; the
normalization `ensure_attendance_cols` coerces exactly the unparsable
`Household` cells to `1` (numeric cells are only truncated, so non-positive
numeric inputs survive normalization, and the `household >= 1` invariant holds
for the add/edit paths that use `to_int`, not after normalization of an
arbitrary table). -/
theorem to_int_household_invariant :
    (∀ n : Int, 0 < n → to_int (some (n : ℚ)) = n) ∧
      (∀ x : Option ℚ, 1 ≤ to_int x) ∧
      (∀ r : RawRow, r.household = none → (ensureRow r).household = 1) ∧
      (∀ r : RawRow, ∀ q : ℚ, r.household = some q →
        (ensureRow r).household = ratTrunc q) := by
  refine ⟨?_, ?_, ?_, ?_⟩
  · intro n hn
    simp [to_int, ratTrunc_intCast, hn]
  · intro x
    match x with
    | none => simp [to_int]
    | some q =>
      simp only [to_int]
      by_cases h : 0 < ratTrunc q
      · rw [if_pos h]; omega
      · rw [if_neg h]
  · intro r h
    simp [ensureRow, to_numeric_fillna1, h]
  · intro r q h
    simp [ensureRow, to_numeric_fillna1, h]

/-- C1, witness: the amended theorem evaluated at the positive integer `3`,
at the unparsable cell `none`, and at a concrete raw row. -/
theorem to_int_household_invariant_witness :
    to_int (some ((3 : Int) : ℚ)) = 3 ∧ 1 ≤ to_int none ∧
      (ensureRow { rawHouseholdZero with household := none }).household = 1 :=
  ⟨to_int_household_invariant.1 3 (by decide),
   to_int_household_invariant.2.1 none,
   to_int_household_invariant.2.2.1 _ rfl⟩

/-- C2.  `computeAbsentees` is the exact set difference of the active roster
and the present set: a name is absent iff it is active and not present, and
nobody is absent when every active name is present. -/
theorem computeAbsentees_sdiff (active present : List String) :
    (∀ n : String, n ∈ computeAbsentees active present ↔
      n ∈ active ∧ n ∉ present) ∧
      ((∀ n ∈ active, n ∈ present) → computeAbsentees active present = ∅) := by
  constructor
  · intro n
    simp [computeAbsentees, Finset.mem_sdiff, List.mem_toFinset]
  · intro hsub
    apply Finset.eq_empty_of_forall_not_mem
    intro n hn
    rw [computeAbsentees, Finset.mem_sdiff, List.mem_toFinset, List.mem_toFinset] at hn
    exact hn.2 (hsub n hn.1)

/-- C2, witness: the theorem evaluated on a concrete roster and check-in list,
including the subset case. -/
theorem computeAbsentees_sdiff_witness :
    ("Carol" ∈ computeAbsentees ["Ann", "Bob", "Carol"] ["Bob", "Ann"] ↔
      "Carol" ∈ ["Ann", "Bob", "Carol"] ∧ "Carol" ∉ ["Bob", "Ann"]) ∧
      computeAbsentees ["Ann", "Bob"] ["Bob", "Ann", "Carol"] = ∅ :=
  ⟨(computeAbsentees_sdiff ["Ann", "Bob", "Carol"] ["Bob", "Ann"]).1 "Carol",
   (computeAbsentees_sdiff ["Ann", "Bob"] ["Bob", "Ann", "Carol"]).2
     (by intro n hn; fin_cases hn <;> decide)⟩

/-- C8.  Deleting a row at a valid ordinal position yields a table one row
shorter whose rows are exactly the original rows with the row at that
position removed, in the original relative order. -/
theorem deleteRow_spec (t : List Row) (idx : Nat) (h : idx < t.length) :
    (deleteRow t idx).length = t.length - 1 ∧
      deleteRow t idx = t.take idx ++ t.drop (idx + 1) := by
  constructor
  · rw [deleteRow, List.length_eraseIdx]
    simp [h]
  · exact List.eraseIdx_eq_take_drop_succ t idx

/-- C8, witness: the theorem evaluated on a concrete three-row table at
position 1. -/
theorem deleteRow_spec_witness :
    (deleteRow [sampleRow "Ann" 1, sampleRow "Bob" 2, sampleRow "Carol" 3] 1).length = 3 - 1 ∧
      deleteRow [sampleRow "Ann" 1, sampleRow "Bob" 2, sampleRow "Carol" 3] 1 =
        [sampleRow "Ann" 1, sampleRow "Bob" 2, sampleRow "Carol" 3].take 1 ++
          [sampleRow "Ann" 1, sampleRow "Bob" 2, sampleRow "Carol" 3].drop 2 :=
  deleteRow_spec [sampleRow "Ann" 1, sampleRow "Bob" 2, sampleRow "Carol" 3] 1 (by decide)

/-- C10.  `ensure_attendance_cols` is idempotent: normalizing an already
normalized table (re-read as raw cells) changes nothing, so one application
equals two. -/
theorem ensure_attendance_cols_idem (t : List RawRow) :
    ensure_attendance_cols ((ensure_attendance_cols t).map Row.toRaw) =
      ensure_attendance_cols t :=
  ensure_toRaw (ensure_attendance_cols t)

theorem lexLt_irrefl (x : List Nat) : lexLt x x = false := by
  induction x with
  | nil => rfl
  | cons a as ih => simp [lexLt, ih]

theorem lexLt_trans (x : List Nat) :
    ∀ y z : List Nat, lexLt x y = true → lexLt y z = true → lexLt x z = true := by
  induction x with
  | nil =>
    intro y z hxy hyz
    cases y with
    | nil => simp [lexLt] at hxy
    | cons b bs =>
      cases z with
      | nil => simp [lexLt] at hyz
      | cons c cs => simp [lexLt]
  | cons a as ih =>
    intro y z hxy hyz
    cases y with
    | nil => simp [lexLt] at hxy
    | cons b bs =>
      cases z with
      | nil => simp [lexLt] at hyz
      | cons c cs =>
        simp only [lexLt] at hxy hyz ⊢
        by_cases hab : a < b
        · by_cases hbc : b < c
          · rw [if_pos (show a < c by omega)]
          · rw [if_neg hbc] at hyz
            by_cases hcb : c < b
            · rw [if_pos hcb] at hyz; simp at hyz
            · have hbc' : b = c := by omega
              subst hbc'
              rw [if_pos hab]
        · rw [if_neg hab] at hxy
          by_cases hba : b < a
          · rw [if_pos hba] at hxy; simp at hxy
          · rw [if_neg hba] at hxy
            have hab' : a = b := by omega
            subst hab'
            by_cases hac : a < c
            · rw [if_pos hac]
            · rw [if_neg hac] at hyz ⊢
              by_cases hca : c < a
              · rw [if_pos hca] at hyz; simp at hyz
              · rw [if_neg hca] at hyz ⊢
                exact ih bs cs hxy hyz

theorem lexLt_trichotomy (x : List Nat) :
    ∀ y : List Nat, lexLt x y = true ∨ lexLt y x = true ∨ x = y := by
  induction x with
  | nil =>
    intro y
    cases y with
    | nil => right; right; rfl
    | cons b bs => left; simp [lexLt]
  | cons a as ih =>
    intro y
    cases y with
    | nil => right; left; simp [lexLt]
    | cons b bs =>
      by_cases hab : a < b
      · left; simp [lexLt, hab]
      · by_cases hba : b < a
        · right; left; simp [lexLt, hba]
        · have hab' : a = b := by omega
          subst hab'
          rcases ih bs with h | h | h
          · left; simp [lexLt, h]
          · right; left; simp [lexLt, h]
          · right; right; rw [h]

theorem strRel_total (a b : String) : strRel a b ∨ strRel b a := by
  unfold strRel strLeB
  rcases lexLt_trichotomy (charVals a) (charVals b) with h | h | h
  · left; simp [h]
  · right; simp [h]
  · left; simp [h]

theorem strRel_trans (a b c : String) : strRel a b → strRel b c → strRel a c := by
  unfold strRel strLeB
  intro hab hbc
  rw [Bool.or_eq_true, beq_iff_eq] at hab hbc ⊢
  rcases hab with hab | hab
  · rcases hbc with hbc | hbc
    · exact Or.inl (lexLt_trans _ _ _ hab hbc)
    · rw [← hbc]; exact Or.inl hab
  · rcases hbc with hbc | hbc
    · rw [hab]; exact Or.inl hbc
    · exact Or.inr (hab.trans hbc)

theorem keyRel_total (a b : String × String) : keyRel a b ∨ keyRel b a := by
  rcases lexLt_trichotomy (charVals a.1) (charVals b.1) with h | h | h
  · left; unfold keyRel keyLeB; simp [h]
  · right; unfold keyRel keyLeB; simp [h]
  · unfold keyRel keyLeB
    simp only [h, lexLt_irrefl, Bool.false_eq_true, if_false]
    exact strRel_total a.2 b.2

theorem keyRel_trans (a b c : String × String) :
    keyRel a b → keyRel b c → keyRel a c := by
  unfold keyRel keyLeB
  intro hab hbc
  by_cases h1 : lexLt (charVals a.1) (charVals b.1) = true
  · by_cases h2 : lexLt (charVals b.1) (charVals c.1) = true
    · rw [if_pos (lexLt_trans _ _ _ h1 h2)]
    · rcases lexLt_trichotomy (charVals b.1) (charVals c.1) with h3 | h3 | h3
      · exact absurd h3 h2
      · rw [if_neg h2, if_pos h3] at hbc; simp at hbc
      · rw [← h3, if_pos h1]
  · by_cases h1' : lexLt (charVals b.1) (charVals a.1) = true
    · rw [if_neg h1, if_pos h1'] at hab; simp at hab
    · have hab1 : charVals a.1 = charVals b.1 := by
        rcases lexLt_trichotomy (charVals a.1) (charVals b.1) with h | h | h
        · exact absurd h h1
        · exact absurd h h1'
        · exact h
      rw [if_neg h1, if_neg h1'] at hab
      by_cases h2 : lexLt (charVals b.1) (charVals c.1) = true
      · rw [if_pos (show lexLt (charVals a.1) (charVals c.1) = true from hab1 ▸ h2)]
      · by_cases h2' : lexLt (charVals c.1) (charVals b.1) = true
        · rw [if_neg h2, if_pos h2'] at hbc; simp at hbc
        · have hbc1 : charVals b.1 = charVals c.1 := by
            rcases lexLt_trichotomy (charVals b.1) (charVals c.1) with h | h | h
            · exact absurd h h2
            · exact absurd h h2'
            · exact h
          rw [if_neg h2, if_neg h2'] at hbc
          rw [if_neg (show ¬ lexLt (charVals a.1) (charVals c.1) = true from by
                rw [hab1, hbc1, lexLt_irrefl]; simp),
              if_neg (show ¬ lexLt (charVals c.1) (charVals a.1) = true from by
                rw [hab1, hbc1, lexLt_irrefl]; simp)]
          exact strRel_trans _ _ _ hab hbc

theorem topRel_total (a b : TopRow) : topRel a b ∨ topRel b a := by
  by_cases h1 : b.people < a.people
  · left; unfold topRel topLeB; rw [if_pos h1]
  · by_cases h2 : a.people < b.people
    · right; unfold topRel topLeB; rw [if_pos h2]
    · rcases strRel_total a.attendee b.attendee with h | h
      · left; unfold topRel topLeB; rw [if_neg h1, if_neg h2]; exact h
      · right; unfold topRel topLeB; rw [if_neg h2, if_neg h1]; exact h

theorem topRel_trans (a b c : TopRow) : topRel a b → topRel b c → topRel a c := by
  unfold topRel topLeB
  intro hab hbc
  by_cases h1 : b.people < a.people
  · by_cases h2 : c.people < b.people
    · rw [if_pos (show c.people < a.people by omega)]
    · rw [if_neg h2] at hbc
      by_cases h3 : b.people < c.people
      · rw [if_pos h3] at hbc; simp at hbc
      · rw [if_pos (show c.people < a.people by omega)]
  · by_cases h1' : a.people < b.people
    · rw [if_neg h1, if_pos h1'] at hab; simp at hab
    · rw [if_neg h1, if_neg h1'] at hab
      by_cases h2 : c.people < b.people
      · rw [if_pos (show c.people < a.people by omega)]
      · by_cases h3 : b.people < c.people
        · rw [if_neg h2, if_pos h3] at hbc; simp at hbc
        · rw [if_neg h2, if_neg h3] at hbc
          rw [if_neg (show ¬ c.people < a.people by omega),
              if_neg (show ¬ a.people < c.people by omega)]
          exact strRel_trans _ _ _ hab hbc

theorem keyGroup_filter (t : List Row) (k : String × String) :
    keyGroup t k =
      t.filter (fun r => decide (r.serviceDate = k.1 ∧ r.serviceName = k.2)) := by
  unfold keyGroup
  apply List.filter_congr
  intro r _
  rw [decide_eq_decide]
  unfold serviceKey
  rw [Prod.ext_iff]

theorem summary_keys_eq (t : List Row) :
    (summary t).map (fun s => (s.serviceDate, s.serviceName)) = summaryKeys t := by
  unfold summary
  rw [List.map_map]
  have h : ((fun s : SummaryRow => (s.serviceDate, s.serviceName)) ∘ summaryOfKey t) = id := by
    funext k
    simp [summaryOfKey]
  rw [h, List.map_id]

/-- C3.  `summary` has one row per distinct (ServiceDate, ServiceName) pair of
the input — its key list is exactly the distinct input keys, without
duplicates — each row's `entries` is the number of input rows with that key
and its `people` the sum of their `Household` values, and the output is
sorted ascending by (ServiceDate, ServiceName). -/
theorem summary_spec (t : List Row) :
    (summary t).length = (t.map serviceKey).dedup.length ∧
      (∀ k : String × String,
        k ∈ (summary t).map (fun s => (s.serviceDate, s.serviceName)) ↔
          k ∈ (t.map serviceKey).dedup) ∧
      ((summary t).map (fun s => (s.serviceDate, s.serviceName))).Nodup ∧
      (∀ s ∈ summary t,
        s.entries = (t.filter (fun r =>
          decide (r.serviceDate = s.serviceDate ∧ r.serviceName = s.serviceName))).length ∧
        s.people = ((t.filter (fun r =>
          decide (r.serviceDate = s.serviceDate ∧
            r.serviceName = s.serviceName))).map Row.household).sum) ∧
      (summary t).Pairwise (fun a b =>
        keyLeB (a.serviceDate, a.serviceName) (b.serviceDate, b.serviceName) = true) := by
  refine ⟨?_, ?_, ?_, ?_, ?_⟩
  · unfold summary summaryKeys
    rw [List.length_map, (List.perm_insertionSort keyRel _).length_eq]
  · intro k
    rw [summary_keys_eq]
    unfold summaryKeys
    simp
  · rw [summary_keys_eq]
    unfold summaryKeys
    exact ((List.perm_insertionSort keyRel _).nodup_iff).mpr (List.nodup_dedup _)
  · intro s hs
    unfold summary at hs
    obtain ⟨k, hk, rfl⟩ := List.mem_map.mp hs
    constructor
    · simp only [summaryOfKey]
      rw [keyGroup_filter]
    · simp only [summaryOfKey]
      rw [keyGroup_filter]
  · unfold summary
    rw [List.pairwise_map]
    have hs : (summaryKeys t).Pairwise keyRel := by
      haveI : IsTotal (String × String) keyRel := ⟨keyRel_total⟩
      haveI : IsTrans (String × String) keyRel := ⟨keyRel_trans⟩
      exact List.sorted_insertionSort keyRel _
    apply hs.imp
    intro k1 k2 h
    simpa [summaryOfKey] using h

/-- C3, witness: the per-row clause of the theorem evaluated on a concrete
two-row table forming a single service group. -/
theorem summary_spec_witness :
    summaryWitnessRow.entries = (summaryWitnessTable.filter (fun r =>
      decide (r.serviceDate = summaryWitnessRow.serviceDate ∧
        r.serviceName = summaryWitnessRow.serviceName))).length ∧
      summaryWitnessRow.people = ((summaryWitnessTable.filter (fun r =>
        decide (r.serviceDate = summaryWitnessRow.serviceDate ∧
          r.serviceName = summaryWitnessRow.serviceName))).map Row.household).sum :=
  (summary_spec summaryWitnessTable).2.2.2.1 summaryWitnessRow (by decide)

/-- C5, counterexample.  On the table whose rows are attendees `"Bob"` then
`"Ann"` with equal `people`, `topn` lists `"Ann"` before `"Bob"`: ties are
emitted in ascending attendee order (the `groupby` key order), not in the
relative order the attendees first appear in the input. -/
theorem topn_input_order_counterexample :
    (topn tieTable).map TopRow.attendee = ["Ann", "Bob"] ∧
      (topn tieTable).map TopRow.attendee ≠ ["Bob", "Ann"] := by
  constructor
  · decide
  · decide

/-- C5, amended.  `topn` groups by attendee, emitting `times` as the row count
and `people` as the household sum of that attendee's rows, lists each attendee
at most once, sorts descending by `people`, truncates to at most 20 rows, and
orders ties in `people` by ascending attendee name (the `groupby` key order) —
not by relative input order. -/
theorem topn_spec (t : List Row) :
    (topn t).length ≤ 20 ∧
      ((topn t).map TopRow.attendee).Nodup ∧
      (∀ s ∈ topn t,
        s.times = (t.filter (fun r => decide (r.attendee = s.attendee))).length ∧
        s.people =
          ((t.filter (fun r => decide (r.attendee = s.attendee))).map Row.household).sum) ∧
      (topn t).Pairwise (fun a b => b.people ≤ a.people) ∧
      (topn t).Pairwise (fun a b => a.people = b.people →
        strLeB a.attendee b.attendee = true) := by
  have hsort : (List.insertionSort topRel ((attKeys t).map (topOfAttendee t))).Pairwise topRel := by
    haveI : IsTotal TopRow topRel := ⟨topRel_total⟩
    haveI : IsTrans TopRow topRel := ⟨topRel_trans⟩
    exact List.sorted_insertionSort topRel _
  refine ⟨?_, ?_, ?_, ?_, ?_⟩
  · unfold topn
    rw [List.length_take]
    exact min_le_left _ _
  · unfold topn
    rw [List.map_take]
    apply List.Nodup.sublist (List.take_sublist _ _)
    have hperm :
        ((List.insertionSort topRel ((attKeys t).map (topOfAttendee t))).map TopRow.attendee).Perm
          (((attKeys t).map (topOfAttendee t)).map TopRow.attendee) :=
      (List.perm_insertionSort topRel _).map _
    rw [hperm.nodup_iff, List.map_map]
    have hcomp : (TopRow.attendee ∘ topOfAttendee t) = id := by
      funext a
      rfl
    rw [hcomp, List.map_id]
    unfold attKeys
    exact ((List.perm_insertionSort strRel _).nodup_iff).mpr (List.nodup_dedup _)
  · intro s hs
    unfold topn at hs
    have hs' := List.mem_of_mem_take hs
    rw [List.mem_insertionSort] at hs'
    obtain ⟨a, ha, rfl⟩ := List.mem_map.mp hs'
    exact ⟨rfl, rfl⟩
  · unfold topn
    apply List.Pairwise.sublist (List.take_sublist _ _)
    apply hsort.imp
    intro a b h
    unfold topRel topLeB at h
    by_cases h1 : b.people < a.people
    · omega
    · rw [if_neg h1] at h
      by_cases h2 : a.people < b.people
      · rw [if_pos h2] at h; simp at h
      · omega
  · unfold topn
    apply List.Pairwise.sublist (List.take_sublist _ _)
    apply hsort.imp
    intro a b h heq
    unfold topRel topLeB at h
    rw [if_neg (show ¬ b.people < a.people by omega),
        if_neg (show ¬ a.people < b.people by omega)] at h
    exact h

/-- C5, witness: the per-row clause of the amended theorem evaluated on the
tie table at the row of attendee `"Ann"`. -/
theorem topn_spec_witness :
    topWitnessRow.times =
        (tieTable.filter (fun r => decide (r.attendee = topWitnessRow.attendee))).length ∧
      topWitnessRow.people =
        ((tieTable.filter (fun r =>
          decide (r.attendee = topWitnessRow.attendee))).map Row.household).sum :=
  (topn_spec tieTable).2.2.1 topWitnessRow (by decide)

/-- C4.  `rollingMean` is undefined at position `i` while fewer than `w`
points precede and include `i`, and otherwise equals the arithmetic mean of
the `w` most recent values (the last `w` of the first `i + 1` points). -/
theorem rollingMean_spec (w : Nat) (xs : List ℚ) (i : Nat)
    (hw1 : 1 ≤ w) (hw8 : w ≤ 8) (hi : i < xs.length) :
    (rollingMean w xs)[i]? =
      some (if i + 1 < w then none
        else some ((((xs.take (i + 1)).reverse.take w).sum) / (w : ℚ))) := by
  unfold rollingMean
  rw [List.getElem?_map,
    show (List.range xs.length)[i]? = some i from by simp [List.getElem?_range, hi]]
  simp only [Option.map_some']
  congr 1
  by_cases hcase : i + 1 < w
  · rw [if_pos hcase, if_pos hcase]
  · rw [if_neg hcase, if_neg hcase]
    have hsum : ((xs.take (i + 1)).reverse.take w).sum =
        ((xs.drop (i + 1 - w)).take w).sum := by
      rw [List.take_reverse, List.sum_reverse, List.length_take,
        show min (i + 1) xs.length = i + 1 from by omega, List.drop_take,
        show i + 1 - (i + 1 - w) = w from by omega]
    rw [hsum]

/-- C4, witness: the theorem evaluated at window 2 on the series
`[10, 20, 30]`, giving the roll column `[undefined, 15, 25]`. -/
theorem rollingMean_spec_witness :
    (rollingMean 2 [(10 : ℚ), 20, 30])[0]? = some none ∧
      (rollingMean 2 [(10 : ℚ), 20, 30])[1]? = some (some 15) ∧
      (rollingMean 2 [(10 : ℚ), 20, 30])[2]? = some (some 25) := by
  refine ⟨?_, ?_, ?_⟩
  · rw [rollingMean_spec 2 [(10 : ℚ), 20, 30] 0 (by norm_num) (by norm_num) (by norm_num)]
    norm_num
  · rw [rollingMean_spec 2 [(10 : ℚ), 20, 30] 1 (by norm_num) (by norm_num) (by norm_num)]
    norm_num
  · rw [rollingMean_spec 2 [(10 : ℚ), 20, 30] 2 (by norm_num) (by norm_num) (by norm_num)]
    norm_num

theorem svcApply_sub (svc : Option String) (t : List Row) :
    ∀ r ∈ svcApply svc t, r ∈ t := by
  intro r hr
  cases svc with
  | none => exact hr
  | some sname => exact List.mem_of_mem_filter hr

theorem dfc_idem (t : List Row) : dfc (dfc t) = dfc t := by
  unfold dfc
  rw [List.filter_filter]
  apply List.filter_congr
  intro r _
  simp

theorem keyGroup_length_count (t : List Row) (k : String × String) :
    (keyGroup t k).length =
      @List.count (String × String) instBEqOfDecidableEq k (t.map serviceKey) := by
  induction t with
  | nil => rfl
  | cons r t ih =>
    unfold keyGroup at ih ⊢
    rw [List.map_cons, List.filter_cons, @List.count_cons _ instBEqOfDecidableEq]
    have hbeq : (@BEq.beq _ instBEqOfDecidableEq (serviceKey r) k) =
        decide (serviceKey r = k) := rfl
    rw [hbeq]
    by_cases h : serviceKey r = k
    · simp [h, ih]
    · simp [h, ih]

theorem summary_entries_sum (t : List Row) :
    ((summary t).map SummaryRow.entries).sum = t.length := by
  unfold summary summaryKeys
  rw [List.map_map,
    show (SummaryRow.entries ∘ summaryOfKey t) = fun k => (keyGroup t k).length from rfl,
    ((List.perm_insertionSort keyRel ((t.map serviceKey).dedup)).map
      (fun k => (keyGroup t k).length)).sum_eq,
    show (fun k => (keyGroup t k).length) =
        fun k => @List.count (String × String) instBEqOfDecidableEq k (t.map serviceKey) from
      funext (keyGroup_length_count t),
    List.sum_map_count_dedup_eq_length, List.length_map]

/-- C9.  Rows whose `ServiceDate` does not parse are dropped from the
dashboard base frame, every row feeding the date-range views has a parsable
date, pre-deleting the unparsable rows changes neither the dashboard row
selection nor the daily / service-mix / top-attendees views built from it,
while the all-time totals `summary` still count every input row (its
`entries` column sums to the full table length).  All the functions involved
are total, so unparsable dates never raise. -/
theorem unparsable_dates_spec (t : List Row) (lo hi : Nat) (svc : Option String) :
    (∀ r ∈ t, parseDate r.serviceDate = none → r ∉ dfc t) ∧
      (∀ r ∈ dashRows t lo hi svc, (parseDate r.serviceDate).isSome = true) ∧
      dashRows (dfc t) lo hi svc = dashRows t lo hi svc ∧
      (daily (dashRows (dfc t) lo hi svc) = daily (dashRows t lo hi svc) ∧
        svcMix (dashRows (dfc t) lo hi svc) = svcMix (dashRows t lo hi svc) ∧
        topn (dashRows (dfc t) lo hi svc) = topn (dashRows t lo hi svc)) ∧
      ((summary t).map SummaryRow.entries).sum = t.length := by
  have hdash : dashRows (dfc t) lo hi svc = dashRows t lo hi svc := by
    unfold dashRows
    rw [dfc_idem]
  refine ⟨?_, ?_, hdash, ⟨by rw [hdash], by rw [hdash], by rw [hdash]⟩, summary_entries_sum t⟩
  · intro r _ hnone
    simp [dfc, List.mem_filter, hnone]
  · intro r hr
    have hr1 : r ∈ (dfc t).filter (fun r => decide (lo ≤ dateRank r ∧ dateRank r ≤ hi)) :=
      svcApply_sub svc _ r hr
    have hr2 : r ∈ dfc t := List.mem_of_mem_filter hr1
    unfold dfc at hr2
    exact (List.mem_filter.mp hr2).2

/-- C9, witness: on a table mixing a parsable and an unparsable date, the
unparsable row is excluded from the dashboard base frame while the all-time
totals still count both rows. -/
theorem unparsable_dates_spec_witness :
    badDateRow ∉ dfc mixedTable ∧
      ((summary mixedTable).map SummaryRow.entries).sum = mixedTable.length :=
  ⟨(unparsable_dates_spec mixedTable 0 99999999 none).1 badDateRow (by decide) (by decide),
   (unparsable_dates_spec mixedTable 0 99999999 none).2.2.2.2⟩

theorem digitVal_char (d : Nat) (h : d < 10) :
    digitVal (Char.ofNat (48 + d)) = some d := by
  interval_cases d <;> decide

theorem parseDigitsAux_digits (ds : List Nat) (h : ∀ d ∈ ds, d < 10) (a : Nat) :
    parseDigitsAux (ds.map (fun d => Char.ofNat (48 + d))) a =
      some (ds.foldl (fun n d => 10 * n + d) a) := by
  induction ds generalizing a with
  | nil => rfl
  | cons d ds ih =>
    rw [List.map_cons]
    show (match digitVal (Char.ofNat (48 + d)) with
      | none => none
      | some d' => parseDigitsAux (ds.map (fun d => Char.ofNat (48 + d))) (10 * a + d')) = _
    rw [digitVal_char d (h d (List.mem_cons_self d ds))]
    show parseDigitsAux (ds.map (fun d => Char.ofNat (48 + d))) (10 * a + d) =
      some (List.foldl (fun n d => 10 * n + d) a (d :: ds))
    rw [ih (fun x hx => h x (List.mem_cons_of_mem d hx)) (10 * a + d)]
    rfl

theorem foldl_digits_reverse (ds : List Nat) (a : Nat) :
    (ds.reverse).foldl (fun n d => 10 * n + d) a =
      a * 10 ^ ds.length + Nat.ofDigits 10 ds := by
  induction ds generalizing a with
  | nil => simp [Nat.ofDigits_nil]
  | cons d ds ih =>
    rw [List.reverse_cons, List.foldl_append, ih]
    show 10 * (a * 10 ^ ds.length + Nat.ofDigits 10 ds) + d =
      a * 10 ^ (ds.length + 1) + Nat.ofDigits 10 (d :: ds)
    rw [Nat.ofDigits_cons, pow_succ]
    ring

theorem parseDigits_renderNat (n : Nat) : parseDigits (renderNat n) = some n := by
  by_cases h0 : n = 0
  · subst h0
    decide
  · unfold renderNat parseDigits
    rw [if_neg h0,
      if_neg (show ¬ ((Nat.digits 10 n).reverse).map (fun d => Char.ofNat (48 + d)) = [] by
        simp [Nat.digits_ne_nil_iff_ne_zero, h0]),
      parseDigitsAux_digits ((Nat.digits 10 n).reverse)
        (fun d hd => Nat.digits_lt_base (by norm_num) (List.mem_reverse.mp hd)) 0,
      foldl_digits_reverse]
    simp [Nat.ofDigits_digits]

theorem renderNat_head (n : Nat) :
    ∃ d rest, renderNat n = Char.ofNat (48 + d) :: rest ∧ d < 10 := by
  by_cases h0 : n = 0
  · subst h0
    exact ⟨0, [], by decide, by norm_num⟩
  · have hne : (Nat.digits 10 n).reverse ≠ [] := by
      simp [Nat.digits_ne_nil_iff_ne_zero, h0]
    obtain ⟨d, ds, hds⟩ := List.exists_cons_of_ne_nil hne
    refine ⟨d, ds.map (fun d => Char.ofNat (48 + d)), ?_, ?_⟩
    · unfold renderNat
      rw [if_neg h0, hds, List.map_cons]
    · exact Nat.digits_lt_base (by norm_num)
        (List.mem_reverse.mp (hds ▸ List.mem_cons_self d ds))

theorem parseNumCell_renderNatStr (n : Nat) :
    parseNumCell (String.mk (renderNat n)) = some ((n : ℚ)) := by
  obtain ⟨d, rest, hEq, hd⟩ := renderNat_head n
  have hc : Char.ofNat (48 + d) ≠ '-' := by
    intro heq
    have h1 := digitVal_char d hd
    have h2 : digitVal ('-' : Char) = none := by decide
    rw [heq, h2] at h1
    exact Option.noConfusion h1
  unfold parseNumCell
  rw [show (String.mk (renderNat n)).data = renderNat n from rfl, hEq]
  show (if Char.ofNat (48 + d) = '-' then (parseDigits rest).map (fun m => -(m : ℚ))
    else (parseDigits (Char.ofNat (48 + d) :: rest)).map (fun m => (m : ℚ))) = some (n : ℚ)
  rw [if_neg hc, ← hEq, parseDigits_renderNat]
  rfl

theorem parseNumCell_renderInt (i : Int) :
    parseNumCell (renderInt i) = some ((i : ℚ)) := by
  unfold renderInt
  by_cases h : i < 0
  · rw [if_pos h]
    unfold parseNumCell
    show ((if ('-' : Char) = '-' then
        (parseDigits (renderNat i.natAbs)).map (fun m => -(m : ℚ))
      else (parseDigits ('-' :: renderNat i.natAbs)).map (fun m => (m : ℚ))) : Option ℚ) =
        some (i : ℚ)
    rw [if_pos rfl, parseDigits_renderNat]
    show some (-(i.natAbs : ℚ)) = some (i : ℚ)
    congr 1
    have habs : ((i.natAbs : ℤ)) = -i := by omega
    calc -(i.natAbs : ℚ) = -(((i.natAbs : ℤ)) : ℚ) := by norm_cast
      _ = -((-i : ℤ) : ℚ) := by rw [habs]
      _ = (i : ℚ) := by push_cast; ring
  · rw [if_neg h, parseNumCell_renderNatStr i.toNat]
    congr 1
    have habs : ((i.toNat : ℤ)) = i := by omega
    calc ((i.toNat : ℚ)) = (((i.toNat : ℤ)) : ℚ) := by norm_cast
      _ = (i : ℚ) := by rw [habs]

theorem rawOfCells_rowCells (r : Row) :
    rawOfCells ATTENDANCE_COLS (rowCells r) = r.toRaw := by
  have h5 : getCell ATTENDANCE_COLS (rowCells r) "Household" = renderInt r.household := rfl
  unfold rawOfCells Row.toRaw
  rw [show getCell ATTENDANCE_COLS (rowCells r) "Timestamp" = r.timestamp from rfl,
    show getCell ATTENDANCE_COLS (rowCells r) "ServiceDate" = r.serviceDate from rfl,
    show getCell ATTENDANCE_COLS (rowCells r) "ServiceName" = r.serviceName from rfl,
    show getCell ATTENDANCE_COLS (rowCells r) "Attendee" = r.attendee from rfl,
    show getCell ATTENDANCE_COLS (rowCells r) "Notes" = r.notes from rfl,
    h5, parseNumCell_renderInt]

/-- C6.  Exporting the current ledger to CSV and re-importing the file with
no edits succeeds and reproduces the ledger exactly: the canonical header
passes the required-column check, and parsing the rendered cells followed by
normalization is the identity on normalized tables. -/
theorem csv_roundtrip (t : List Row) : importCsv (csv_att t) = Except.ok t := by
  unfold importCsv csv_att
  rw [show ATTENDANCE_COLS.filter (fun c => decide (c ∉ ATTENDANCE_COLS)) = [] from by decide,
    if_pos rfl, ensure_toRaw, List.map_map,
    show (rawOfCells ATTENDANCE_COLS ∘ rowCells) = Row.toRaw from funext rawOfCells_rowCells,
    ensure_toRaw]

/-- C7.  A CSV whose header lacks any required attendance column is rejected
in full: the import fails with an error naming the missing column, and the
current ledger is left unchanged. -/
theorem import_missing_column_rejected (csv : Csv) (current : List Row) (c : String)
    (hc : c ∈ ATTENDANCE_COLS) (hmiss : c ∉ csv.header) :
    (∃ ms, importCsv csv = Except.error ms ∧ c ∈ ms) ∧
      applyImport csv current = current := by
  have hfil : c ∈ ATTENDANCE_COLS.filter (fun x => decide (x ∉ csv.header)) :=
    List.mem_filter.mpr ⟨hc, by simp [hmiss]⟩
  have hne : ¬ ATTENDANCE_COLS.filter (fun x => decide (x ∉ csv.header)) = [] := by
    intro h
    rw [h] at hfil
    exact absurd hfil (List.not_mem_nil c)
  constructor
  · refine ⟨ATTENDANCE_COLS.filter (fun x => decide (x ∉ csv.header)), ?_, hfil⟩
    unfold importCsv
    rw [if_neg hne]
  · unfold applyImport importCsv
    rw [if_neg hne]

/-- C7, witness: a concrete CSV missing the `Household` column is rejected
with `Household` among the reported missing columns, leaving a concrete
ledger unchanged. -/
theorem import_missing_column_rejected_witness :
    (∃ ms, importCsv noHouseholdCsv = Except.error ms ∧ "Household" ∈ ms) ∧
      applyImport noHouseholdCsv [sampleRow "Ann" 2] = [sampleRow "Ann" 2] :=
  import_missing_column_rejected noHouseholdCsv [sampleRow "Ann" 2] "Household"
    (by decide) (by decide)

end ChurchAttendance
